import Mathlib

set_option autoImplicit false

/-!
Shallow embedding of `build_epub.py` (teletype-to-epub): the link-index
builder, the fetch planner and orchestrator, the two-strategy content
extractor, and the JSON/base64 fetch cache, together with theorems about
the claims of the specification.

Modelling conventions:
* Python dicts are association lists kept key-unique by `dictInsert`
  (update-in-place, append-if-new — Python insertion-order semantics).
* Machine-level library calls that the script delegates to (the regex
  engine of `re`, `json.loads`, BeautifulSoup HTML parsing, `hashlib.md5`,
  network downloads) are oracles passed in as function parameters; every
  line of control flow of the script itself is embedded.
* Bytes are `Nat` values `< 256`; base64 is implemented, not abstracted.
-/

namespace TeletypeEpub

/-- Python dict lookup `d.get(k)` on an association list (first match; maps
built with `dictInsert` keep keys unique, as a Python dict does). -/
def alookup {α β : Type} [DecidableEq α] (k : α) : List (α × β) → Option β
  | [] => none
  | (k₂, v) :: rest => if k₂ = k then some v else alookup k rest

/-- Python dict assignment `d[k] = v`: update in place when the key is
present, append at the end otherwise. -/
def dictInsert {α β : Type} [DecidableEq α] (k : α) (v : β) : List (α × β) → List (α × β)
  | [] => [(k, v)]
  | (k₂, v₂) :: rest => if k₂ = k then (k, v) :: rest else (k₂, v₂) :: dictInsert k v rest

theorem alookup_dictInsert_self {α β : Type} [DecidableEq α] (k : α) (v : β)
    (d : List (α × β)) : alookup k (dictInsert k v d) = some v := by
  induction d with
  | nil => simp [dictInsert, alookup]
  | cons hd tl ih =>
    obtain ⟨k₂, v₂⟩ := hd
    by_cases h : k₂ = k
    · simp [dictInsert, h, alookup]
    · simp [dictInsert, h, alookup, ih]

theorem alookup_dictInsert_ne {α β : Type} [DecidableEq α] {k k₂ : α} (v : β)
    (d : List (α × β)) (h : k₂ ≠ k) :
    alookup k₂ (dictInsert k v d) = alookup k₂ d := by
  induction d with
  | nil => simp [dictInsert, alookup, Ne.symm h]
  | cons hd tl ih =>
    obtain ⟨k₃, v₃⟩ := hd
    by_cases h₃ : k₃ = k
    · subst h₃
      simp [dictInsert, alookup, Ne.symm h]
    · simp only [dictInsert, if_neg h₃, alookup]
      by_cases h₄ : k₃ = k₂ <;> simp [h₄, ih]

/-! ## Link Index Builder (`parse_links_file`)

The regex scan itself (module `re`) is not re-implemented: the loop body of
`parse_links_file` is embedded over the sequence of matches the finditer
call yields, each match carrying the three captured groups (chapter number,
url, editor handle). -/

/-- One match of the chapter-link pattern: captured chapter number, full
url, and editor handle. -/
structure LinkMatch where
  num : Nat
  url : String
  editor : String
deriving DecidableEq

/-- The chapter index: chapter number → (editor handle → url). -/
abbrev ChapterIndex := List (Nat × List (String × String))

/-- Loop body of `parse_links_file` for one regex match:
`chapters[num][editor] = url` (creating the inner dict if absent). -/
def linkStep (cm : ChapterIndex) (m : LinkMatch) : ChapterIndex :=
  dictInsert m.num (dictInsert m.editor m.url ((alookup m.num cm).getD [])) cm

/-- Accumulation of `editors_set.add(editor)`; the Python set is modelled as
a duplicate-free list in first-insertion order (the final `sorted` makes the
internal order irrelevant). -/
def addEditor (s : List String) (e : String) : List String :=
  if e ∈ s then s else s ++ [e]

/-- Embedding of `parse_links_file`: builds the chapter index and the
lexicographically sorted list of all distinct editor handles from the
sequence of regex matches. -/
def parse_links_file (ms : List LinkMatch) : ChapterIndex × List String :=
  (ms.foldl linkStep [],
    (ms.foldl (fun s m => addEditor s m.editor) []).insertionSort (· ≤ ·))

/-! ## Fetch planning (`main`, validation loop)

`main` walks `range(start_chapter, end_chapter + 1)`; for each chapter it
takes the first editor of `conf.editor_priority` present in that chapter's
source map, queueing `(num, url)`, and otherwise records the chapter in
`missing_chapters`. -/

/-- Inner loop of the planner: the `for editor in conf.editor_priority`
search with `break` on the first editor present in the chapter's map. -/
def resolveURL (srcs : List (String × String)) : List String → Option String
  | [] => none
  | e :: rest =>
    match alookup e srcs with
    | some u => some u
    | none => resolveURL srcs rest

/-- Planning loop of `main` over the requested chapter numbers: builds
`chapters_queue` and `missing_chapters` in traversal order. -/
def planLoop (cm : ChapterIndex) (prio : List String) :
    List Nat → List (Nat × String) × List Nat
  | [] => ([], [])
  | n :: ns =>
    match alookup n cm with
    | none => ((planLoop cm prio ns).1, n :: (planLoop cm prio ns).2)
    | some srcs =>
      match resolveURL srcs prio with
      | some u => ((n, u) :: (planLoop cm prio ns).1, (planLoop cm prio ns).2)
      | none => ((planLoop cm prio ns).1, n :: (planLoop cm prio ns).2)

/-- The fetch planner over the closed range `[lo, hi]`, i.e. Python's
`range(start_chapter, end_chapter + 1)`. -/
def planChapters (cm : ChapterIndex) (prio : List String) (lo hi : Nat) :
    List (Nat × String) × List Nat :=
  planLoop cm prio (List.range' lo (hi + 1 - lo))

theorem resolveURL_first {srcs : List (String × String)} (p₁ p₂ : List String)
    {e u : String} (h₁ : ∀ x ∈ p₁, alookup x srcs = none)
    (h₂ : alookup e srcs = some u) :
    resolveURL srcs (p₁ ++ e :: p₂) = some u := by
  induction p₁ with
  | nil => simp [resolveURL, h₂]
  | cons hd tl ih =>
    have hhd := h₁ hd (List.mem_cons_self _ _)
    simp only [List.cons_append, resolveURL, hhd]
    exact ih fun x hx => h₁ x (List.mem_cons_of_mem _ hx)

theorem resolveURL_none {srcs : List (String × String)} {prio : List String}
    (h : ∀ x ∈ prio, alookup x srcs = none) :
    resolveURL srcs prio = none := by
  induction prio with
  | nil => rfl
  | cons hd tl ih =>
    have hhd := h hd (List.mem_cons_self _ _)
    simp only [resolveURL, hhd]
    exact ih fun x hx => h x (List.mem_cons_of_mem _ hx)

theorem planLoop_cons (cm : ChapterIndex) (prio : List String) (hd : Nat)
    (tl : List Nat) :
    planLoop cm prio (hd :: tl) =
      match alookup hd cm with
      | none => ((planLoop cm prio tl).1, hd :: (planLoop cm prio tl).2)
      | some srcs =>
        match resolveURL srcs prio with
        | some u => ((hd, u) :: (planLoop cm prio tl).1, (planLoop cm prio tl).2)
        | none => ((planLoop cm prio tl).1, hd :: (planLoop cm prio tl).2) := rfl

theorem planLoop_cons_mono (cm : ChapterIndex) (prio : List String) (hd : Nat)
    (tl : List Nat) :
    (∀ x ∈ (planLoop cm prio tl).1, x ∈ (planLoop cm prio (hd :: tl)).1) ∧
    (∀ x ∈ (planLoop cm prio tl).2, x ∈ (planLoop cm prio (hd :: tl)).2) := by
  rw [planLoop_cons]
  cases h₁ : alookup hd cm with
  | none => exact ⟨fun x hx => hx, fun x hx => List.mem_cons_of_mem _ hx⟩
  | some srcs =>
    cases h₂ : resolveURL srcs prio with
    | none =>
      simp only [h₂]
      exact ⟨fun x hx => hx, fun x hx => List.mem_cons_of_mem _ hx⟩
    | some u =>
      simp only [h₂]
      exact ⟨fun x hx => List.mem_cons_of_mem _ hx, fun x hx => hx⟩

theorem planLoop_mem (cm : ChapterIndex) (prio : List String) (nums : List Nat)
    (n : Nat) (hn : n ∈ nums) :
    (alookup n cm = none → n ∈ (planLoop cm prio nums).2) ∧
    (∀ srcs, alookup n cm = some srcs →
      (resolveURL srcs prio = none → n ∈ (planLoop cm prio nums).2) ∧
      (∀ u, resolveURL srcs prio = some u → (n, u) ∈ (planLoop cm prio nums).1)) := by
  induction nums with
  | nil => cases hn
  | cons hd tl ih =>
    rcases List.mem_cons.mp hn with rfl | hmem
    · refine ⟨fun hnone => ?_, fun srcs hsome => ⟨fun hru => ?_, fun u hru => ?_⟩⟩
      · rw [planLoop_cons, hnone]; exact List.mem_cons_self _ _
      · rw [planLoop_cons, hsome]; simp only [hru]; exact List.mem_cons_self _ _
      · rw [planLoop_cons, hsome]; simp only [hru]; exact List.mem_cons_self _ _
    · have ihm := ih hmem
      have mono := planLoop_cons_mono cm prio hd tl
      refine ⟨fun hnone => mono.2 _ (ihm.1 hnone),
        fun srcs hsome => ⟨fun hru => mono.2 _ ((ihm.2 srcs hsome).1 hru),
          fun u hru => mono.1 _ ((ihm.2 srcs hsome).2 u hru)⟩⟩

/-! ## Lemmas for the Link Index Builder -/

theorem linkStep_preserve (cm : ChapterIndex) {m : LinkMatch} (m₂ : LinkMatch)
    (h : ¬(m₂.num = m.num ∧ m₂.editor = m.editor)) :
    alookup m.editor ((alookup m.num (linkStep cm m₂)).getD []) =
      alookup m.editor ((alookup m.num cm).getD []) := by
  unfold linkStep
  by_cases hn : m₂.num = m.num
  · have he : m.editor ≠ m₂.editor := fun hh => h ⟨hn, hh.symm⟩
    rw [hn, alookup_dictInsert_self]
    simp only [Option.getD_some]
    exact alookup_dictInsert_ne _ _ he
  · rw [alookup_dictInsert_ne _ _ (fun hh => hn hh.symm)]

theorem linkStep_self (cm : ChapterIndex) (m : LinkMatch) :
    alookup m.editor ((alookup m.num (linkStep cm m)).getD []) = some m.url := by
  unfold linkStep
  rw [alookup_dictInsert_self]
  simp only [Option.getD_some]
  exact alookup_dictInsert_self _ _ _

theorem foldl_linkStep_preserve (l : List LinkMatch) (cm : ChapterIndex)
    {m : LinkMatch} (h : ∀ m₂ ∈ l, ¬(m₂.num = m.num ∧ m₂.editor = m.editor)) :
    alookup m.editor ((alookup m.num (l.foldl linkStep cm)).getD []) =
      alookup m.editor ((alookup m.num cm).getD []) := by
  induction l generalizing cm with
  | nil => rfl
  | cons hd tl ih =>
    rw [List.foldl_cons, ih (linkStep cm hd) fun x hx => h x (List.mem_cons_of_mem _ hx)]
    exact linkStep_preserve cm hd (h hd (List.mem_cons_self _ _))

theorem mem_addEditor (a : List String) (e x : String) :
    x ∈ addEditor a e ↔ x ∈ a ∨ x = e := by
  unfold addEditor
  by_cases h : e ∈ a
  · simp only [if_pos h]
    constructor
    · exact Or.inl
    · rintro (hx | rfl)
      · exact hx
      · exact h
  · simp [if_neg h]

theorem mem_foldl_addEditor (ms : List LinkMatch) (acc : List String) (x : String) :
    x ∈ ms.foldl (fun s m => addEditor s m.editor) acc ↔
      x ∈ acc ∨ ∃ m ∈ ms, m.editor = x := by
  induction ms generalizing acc with
  | nil => simp
  | cons hd tl ih =>
    rw [List.foldl_cons, ih, mem_addEditor]
    simp only [List.mem_cons]
    constructor
    · rintro ((hx | rfl) | ⟨m, hm, rfl⟩)
      · exact Or.inl hx
      · exact Or.inr ⟨hd, Or.inl rfl, rfl⟩
      · exact Or.inr ⟨m, Or.inr hm, rfl⟩
    · rintro (hx | ⟨m, hm | hm, rfl⟩)
      · exact Or.inl (Or.inl hx)
      · exact Or.inl (Or.inr (by rw [hm]))
      · exact Or.inr ⟨m, hm, rfl⟩

theorem nodup_addEditor (a : List String) (e : String) (h : a.Nodup) :
    (addEditor a e).Nodup := by
  unfold addEditor
  by_cases hm : e ∈ a
  · simpa [if_pos hm] using h
  · simp [if_neg hm, List.nodup_append, h, hm]

theorem nodup_foldl_addEditor (ms : List LinkMatch) (acc : List String)
    (h : acc.Nodup) :
    (ms.foldl (fun s m => addEditor s m.editor) acc).Nodup := by
  induction ms generalizing acc with
  | nil => exact h
  | cons hd tl ih => exact ih _ (nodup_addEditor _ _ h)

/-! ## Claim C1 and C9 theorems -/

/-- C1: for every chapter number in the closed range [start, end], the fetch
planner resolves that chapter's URL to the URL of the first source in the
caller-given priority order that has an entry in that chapter's source map;
every chapter in the range with no index entry at all, or with no entry for
any prioritized source, is placed in the missing-chapters list. -/
theorem plan_resolution (cm : ChapterIndex) (prio : List String) (lo hi n : Nat)
    (hlo : lo ≤ n) (hhi : n ≤ hi) :
    (alookup n cm = none → n ∈ (planChapters cm prio lo hi).2) ∧
    (∀ srcs, alookup n cm = some srcs →
      ((∀ e ∈ prio, alookup e srcs = none) → n ∈ (planChapters cm prio lo hi).2) ∧
      (∀ p₁ e p₂ u, prio = p₁ ++ e :: p₂ → (∀ x ∈ p₁, alookup x srcs = none) →
        alookup e srcs = some u → (n, u) ∈ (planChapters cm prio lo hi).1)) := by
  have hn : n ∈ List.range' lo (hi + 1 - lo) := by
    rw [List.mem_range']
    exact ⟨n - lo, by omega, by omega⟩
  have h := planLoop_mem cm prio _ n hn
  refine ⟨h.1, fun srcs hsome =>
    ⟨fun habs => (h.2 srcs hsome).1 (resolveURL_none habs), ?_⟩⟩
  rintro p₁ e p₂ u rfl h₁ h₂
  exact (h.2 srcs hsome).2 u (resolveURL_first p₁ p₂ h₁ h₂)

theorem plan_resolution_witness :
    (1, "url1") ∈ (planChapters [(1, [("A", "url1"), ("B", "url2")]),
        (2, [("B", "url3")])] ["A", "B"] 1 2).1 ∧
    (2, "url3") ∈ (planChapters [(1, [("A", "url1"), ("B", "url2")]),
        (2, [("B", "url3")])] ["A", "B"] 1 2).1 ∧
    3 ∈ (planChapters [(1, [("A", "url1"), ("B", "url2")]),
        (2, [("B", "url3")])] ["A", "B"] 1 3).2 := by
  refine ⟨?_, ?_, ?_⟩
  · exact ((plan_resolution _ ["A", "B"] 1 2 1 (by decide) (by decide)).2
      [("A", "url1"), ("B", "url2")] (by decide)).2 [] "A" ["B"] "url1" rfl
      (by decide) (by decide)
  · exact ((plan_resolution _ ["A", "B"] 1 2 2 (by decide) (by decide)).2
      [("B", "url3")] (by decide)).2 ["A"] "B" [] "url3" rfl
      (by decide) (by decide)
  · exact (plan_resolution _ ["A", "B"] 1 3 3 (by decide) (by decide)).1 (by decide)

/-- C9: when the same (chapter number, source handle) pair matches the link
pattern more than once, the Link Index Builder records the URL of the
last-occurring match; the returned list of all distinct source handles is
lexicographically sorted, contains exactly the handles encountered, and is
independent of discovery order. -/
theorem parse_links_last_wins_sorted (ms : List LinkMatch) :
    (∀ l₁ (m : LinkMatch) l₂, ms = l₁ ++ m :: l₂ →
      (∀ m₂ ∈ l₂, ¬(m₂.num = m.num ∧ m₂.editor = m.editor)) →
      alookup m.editor ((alookup m.num (parse_links_file ms).1).getD [])
        = some m.url) ∧
    (parse_links_file ms).2.Sorted (· ≤ ·) ∧
    (∀ x, x ∈ (parse_links_file ms).2 ↔ ∃ m ∈ ms, m.editor = x) ∧
    (∀ ms₂, ms.Perm ms₂ → (parse_links_file ms).2 = (parse_links_file ms₂).2) := by
  refine ⟨?_, List.sorted_insertionSort _ _, fun x => ?_, fun ms₂ hp => ?_⟩
  · rintro l₁ m l₂ rfl hlast
    show alookup m.editor
      ((alookup m.num ((l₁ ++ m :: l₂).foldl linkStep [])).getD []) = some m.url
    rw [List.foldl_append, List.foldl_cons,
      foldl_linkStep_preserve l₂ _ hlast]
    exact linkStep_self _ m
  · unfold parse_links_file
    rw [(List.perm_insertionSort _ _).mem_iff, mem_foldl_addEditor]
    simp
  · have hmem : ∀ x, x ∈ ms.foldl (fun s m => addEditor s m.editor) [] ↔
        x ∈ ms₂.foldl (fun s m => addEditor s m.editor) [] := by
      intro x
      rw [mem_foldl_addEditor, mem_foldl_addEditor]
      constructor
      · rintro (hx | ⟨m, hm, rfl⟩)
        · cases hx
        · exact Or.inr ⟨m, hp.subset hm, rfl⟩
      · rintro (hx | ⟨m, hm, rfl⟩)
        · cases hx
        · exact Or.inr ⟨m, hp.symm.subset hm, rfl⟩
    have hperm := (List.perm_ext_iff_of_nodup
      (nodup_foldl_addEditor ms [] List.nodup_nil)
      (nodup_foldl_addEditor ms₂ [] List.nodup_nil)).2 hmem
    exact List.eq_of_perm_of_sorted
      (((List.perm_insertionSort _ _).trans hperm).trans
        (List.perm_insertionSort _ _).symm)
      (List.sorted_insertionSort _ _) (List.sorted_insertionSort _ _)

theorem parse_links_witness :
    alookup "@b" ((alookup 1 (parse_links_file
        [⟨1, "u1", "@b"⟩, ⟨2, "u2", "@a"⟩, ⟨1, "u3", "@b"⟩]).1).getD [])
      = some "u3" ∧
    (parse_links_file [⟨1, "u1", "@b"⟩, ⟨2, "u2", "@a"⟩, ⟨1, "u3", "@b"⟩]).2 =
      (parse_links_file [⟨1, "u3", "@b"⟩, ⟨2, "u2", "@a"⟩, ⟨1, "u1", "@b"⟩]).2 := by
  constructor
  · exact (parse_links_last_wins_sorted _).1 [⟨1, "u1", "@b"⟩, ⟨2, "u2", "@a"⟩]
      ⟨1, "u3", "@b"⟩ [] rfl (by decide)
  · exact (parse_links_last_wins_sorted _).2.2.2 _ (by decide)

/-! ## Base64 (`base64.b64encode` / `base64.b64decode`)

Bytes are `Nat < 256`; base64 characters are ASCII codes. Decoding is
modelled strictly in the shape the encoder produces (padding only at the
end, length a multiple of four); any other input decodes to `none`, which
`load_cache` turns into a cache miss. -/

/-- Base64 alphabet: sextet value (0–63) to ASCII code. -/
def b64table (n : Nat) : Nat :=
  if n < 26 then 65 + n
  else if n < 52 then 97 + (n - 26)
  else if n < 62 then 48 + (n - 52)
  else if n = 62 then 43
  else 47

/-- Inverse base64 alphabet: ASCII code to sextet value, `none` when the
character is not in the alphabet. -/
def b64inv (c : Nat) : Option Nat :=
  if 65 ≤ c ∧ c ≤ 90 then some (c - 65)
  else if 97 ≤ c ∧ c ≤ 122 then some (c - 97 + 26)
  else if 48 ≤ c ∧ c ≤ 57 then some (c - 48 + 52)
  else if c = 43 then some 62
  else if c = 47 then some 63
  else none

/-- ASCII code of the base64 padding character. -/
def padChar : Nat := 61

/-- Base64 encoding of a byte list, three bytes to four characters with
trailing padding. -/
def b64encodeBytes : List Nat → List Nat
  | [] => []
  | [a] => [b64table (a / 4), b64table (a % 4 * 16), padChar, padChar]
  | [a, b] => [b64table (a / 4), b64table (a % 4 * 16 + b / 16),
      b64table (b % 16 * 4), padChar]
  | a :: b :: c :: rest =>
    b64table (a / 4) :: b64table (a % 4 * 16 + b / 16) ::
      b64table (b % 16 * 4 + c / 64) :: b64table (c % 64) :: b64encodeBytes rest

/-- Base64 decoding, four characters to three bytes, `none` on any
malformed input. -/
def b64decodeChars : List Nat → Option (List Nat)
  | [] => some []
  | c₁ :: c₂ :: c₃ :: c₄ :: rest =>
    match b64inv c₁, b64inv c₂ with
    | some v₁, some v₂ =>
      if c₃ = padChar then
        if c₄ = padChar ∧ rest = [] then some [v₁ * 4 + v₂ / 16] else none
      else
        match b64inv c₃ with
        | some v₃ =>
          if c₄ = padChar then
            if rest = [] then some [v₁ * 4 + v₂ / 16, v₂ % 16 * 16 + v₃ / 4]
            else none
          else
            match b64inv c₄ with
            | some v₄ =>
              match b64decodeChars rest with
              | some tail => some ((v₁ * 4 + v₂ / 16) :: (v₂ % 16 * 16 + v₃ / 4) ::
                  (v₃ % 4 * 64 + v₄) :: tail)
              | none => none
            | none => none
        | none => none
    | _, _ => none
  | _ => none

theorem b64inv_b64table {n : Nat} (h : n < 64) : b64inv (b64table n) = some n := by
  interval_cases n <;> rfl

theorem b64table_ne_pad {n : Nat} (h : n < 64) : b64table n ≠ padChar := by
  interval_cases n <;> decide

theorem b64decode_encode : ∀ l : List Nat, (∀ b ∈ l, b < 256) →
    b64decodeChars (b64encodeBytes l) = some l
  | [], _ => rfl
  | [a], h => by
    have ha : a < 256 := h a (List.mem_singleton_self a)
    have h₁ : a / 4 < 64 := by omega
    have h₂ : a % 4 * 16 < 64 := by omega
    simp only [b64encodeBytes, b64decodeChars, b64inv_b64table h₁,
      b64inv_b64table h₂, if_pos rfl, and_self]
    simp
    omega
  | [a, b], h => by
    have ha : a < 256 := h a (by simp)
    have hb : b < 256 := h b (by simp)
    have h₁ : a / 4 < 64 := by omega
    have h₂ : a % 4 * 16 + b / 16 < 64 := by omega
    have h₃ : b % 16 * 4 < 64 := by omega
    simp only [b64encodeBytes, b64decodeChars, b64inv_b64table h₁,
      b64inv_b64table h₂, b64inv_b64table h₃, if_neg (b64table_ne_pad h₃),
      if_pos rfl]
    simp
    omega
  | a :: b :: c :: rest, h => by
    have ha : a < 256 := h a (by simp)
    have hb : b < 256 := h b (by simp)
    have hc : c < 256 := h c (by simp)
    have h₁ : a / 4 < 64 := by omega
    have h₂ : a % 4 * 16 + b / 16 < 64 := by omega
    have h₃ : b % 16 * 4 + c / 64 < 64 := by omega
    have h₄ : c % 64 < 64 := by omega
    have ih := b64decode_encode rest fun x hx => h x (by simp [hx])
    show b64decodeChars (b64table (a / 4) :: b64table (a % 4 * 16 + b / 16) ::
      b64table (b % 16 * 4 + c / 64) :: b64table (c % 64) ::
      b64encodeBytes rest) = some (a :: b :: c :: rest)
    simp only [b64decodeChars, b64inv_b64table h₁, b64inv_b64table h₂,
      b64inv_b64table h₃, b64inv_b64table h₄, if_neg (b64table_ne_pad h₃),
      if_neg (b64table_ne_pad h₄), ih]
    simp
    omega

/-! ## Fetch Cache (`save_cache` / `load_cache`) -/

/-- In-memory chapter record as carried in `result_data` and passed to
`save_cache`: chapter number, title, joined block markup, and images as
(filename, bytes) pairs. -/
structure ChapterData where
  chapter_num : Nat
  title : String
  html : String
  images : List (String × List Nat)
deriving DecidableEq

/-- On-disk JSON cache record (the `to_save` dict): images carry base64
text, stored here as ASCII codes. -/
structure CacheRecord where
  chapter_num : Nat
  title : String
  html : String
  images : List (String × List Nat)
  has_images : Bool
deriving DecidableEq

/-- The dict `load_cache` returns on success: the parsed record with the
image entries base64-decoded back to bytes. -/
structure CachedChapter where
  chapter_num : Nat
  title : String
  html : String
  images : List (String × List Nat)
  has_images : Bool
deriving DecidableEq

/-- Projection of a loaded cache dict onto the fields every downstream
consumer (sorting, EPUB build) reads. -/
def CachedChapter.toData (c : CachedChapter) : ChapterData :=
  { chapter_num := c.chapter_num, title := c.title, html := c.html,
    images := c.images }

/-- One cache file as `load_cache` can encounter it: unreadable (any I/O
exception), invalid (`json.load` raises), or a parsed record. A chapter
with no entry in the store has no file at all. -/
inductive CacheFile
  | unreadable
  | invalid
  | record (r : CacheRecord)
deriving DecidableEq

/-- The cache directory: chapter number → file. -/
abbrev CacheStore := List (Nat × CacheFile)

/-- Embedding of `save_cache`: serialize (base64-encode every image, set
`has_images`) and overwrite the chapter's file wholesale. -/
def save_cache (store : CacheStore) (d : ChapterData) : CacheStore :=
  dictInsert d.chapter_num (CacheFile.record
    { chapter_num := d.chapter_num
      title := d.title
      html := d.html
      images := d.images.map (fun fb => (fb.1, b64encodeBytes fb.2))
      has_images := !d.images.isEmpty }) store

/-- Base64 decoding of a record's image list; `none` when any entry fails
(Python: `base64.b64decode` raises and `load_cache` catches). -/
def decodeImages : List (String × List Nat) → Option (List (String × List Nat))
  | [] => some []
  | (f, s) :: rest =>
    match b64decodeChars s with
    | none => none
    | some bytes =>
      match decodeImages rest with
      | none => none
      | some tail => some ((f, bytes) :: tail)

/-- Embedding of `load_cache`: an absent file, an unreadable file, invalid
JSON and a base64 failure all return `none` (the blanket
`except Exception: return None`); a well-formed record is deserialized. -/
def load_cache (store : CacheStore) (num : Nat) : Option CachedChapter :=
  match alookup num store with
  | none => none
  | some CacheFile.unreadable => none
  | some CacheFile.invalid => none
  | some (CacheFile.record r) =>
    match decodeImages r.images with
    | none => none
    | some imgs =>
      some { chapter_num := r.chapter_num, title := r.title, html := r.html,
             images := imgs, has_images := r.has_images }

theorem decodeImages_encode : ∀ l : List (String × List Nat),
    (∀ fb ∈ l, ∀ b ∈ fb.2, b < 256) →
    decodeImages (l.map fun fb => (fb.1, b64encodeBytes fb.2)) = some l
  | [], _ => rfl
  | (f, s) :: rest, h => by
    have hs := b64decode_encode s (h (f, s) (by simp))
    have ih := decodeImages_encode rest fun fb hfb => h fb (by simp [hfb])
    simp only [List.map_cons, decodeImages, hs, ih]

/-! ## Fetch Orchestrator (`main`, execution phase) -/

/-- Return value of `fetch_chapter`: title, joined html, images. -/
structure FetchOut where
  title : String
  html : String
  images : List (String × List Nat)
deriving DecidableEq

/-- Outcome of one `fetch_chapter` call as the orchestrator sees it:
`none` models a raised exception (network error, timeout, HTTP error,
anything the bare `except` catches), `some` a returned chapter body. The
oracle is indexed by chapter number, url and retry-attempt number, so
distinct attempts can behave differently. -/
abbrev FetchOracle := Nat → String → Nat → Option FetchOut

/-- The retry loop of `main` (`retries = 3; while retries > 0: ...`): a
failed attempt decrements the counter and performs `time.sleep(2)`.
Returns the first success (if any), the list of attempt indices made, and
the list of sleep durations performed. -/
def retryLoop (tryFetch : Nat → Option FetchOut) : Nat → Nat →
    Option FetchOut × List Nat × List Nat
  | 0, _ => (none, [], [])
  | r + 1, k =>
    match tryFetch k with
    | some d => (some d, [k], [])
    | none =>
      ((retryLoop tryFetch r (k + 1)).1,
        k :: (retryLoop tryFetch r (k + 1)).2.1,
        2 :: (retryLoop tryFetch r (k + 1)).2.2)

/-- Lift of a `fetch_chapter` result into the `result_data` dict shape
(`data["chapter_num"] = num`). -/
def FetchOut.withNum (d : FetchOut) (num : Nat) : ChapterData :=
  { chapter_num := num, title := d.title, html := d.html, images := d.images }

/-- The download loop of `main` over `uncached_queue`: per entry the retry
loop with `retries = 3`; exhaustion raises (`if not success: raise ...`),
aborting the whole loop. Returns the trace of (chapter, attempt) Content
Extractor invocations together with either the failing chapter number or
the fetched chapters in order. (The per-success `save_cache` write is not
threaded here: the store is never re-read within a run.) -/
def fetchLoop (fetchO : FetchOracle) : List (Nat × String) →
    List (Nat × Nat) × Except Nat (List ChapterData)
  | [] => ([], Except.ok [])
  | (num, url) :: rest =>
    match (retryLoop (fetchO num url) 3 0).1 with
    | none =>
      ((retryLoop (fetchO num url) 3 0).2.1.map (fun k => (num, k)),
        Except.error num)
    | some d =>
      ((retryLoop (fetchO num url) 3 0).2.1.map (fun k => (num, k)) ++
          (fetchLoop fetchO rest).1,
        match (fetchLoop fetchO rest).2 with
        | Except.error m => Except.error m
        | Except.ok ds => Except.ok (d.withNum num :: ds))

/-- The cache pass of `main`: every queue entry is looked up in the cache;
hits go to `result_data` exactly as loaded (`need_reparse` is computed and
discarded — the stale-images branch of the source is a no-op `pass`),
misses to `uncached_queue`. -/
def splitCache (store : CacheStore) (includeImages : Bool) :
    List (Nat × String) → List ChapterData × List (Nat × String)
  | [] => ([], [])
  | (num, url) :: rest =>
    match load_cache store num with
    | some c =>
      let _need_reparse := includeImages && !c.has_images && c.images.isEmpty
      (c.toData :: (splitCache store includeImages rest).1,
        (splitCache store includeImages rest).2)
    | none =>
      ((splitCache store includeImages rest).1,
        (num, url) :: (splitCache store includeImages rest).2)

/-- The two fatal outcomes of the orchestration phase of `main`. -/
inductive OrchError
  | missingChapters (nums : List Nat)
  | chapterFailed (num : Nat)
deriving DecidableEq

/-- The orchestration core of `main` after configuration: plan the range,
fail fatally when chapters are missing, split the plan against the cache,
fetch the misses with retries, and sort the combined `result_data` by
chapter number. The first component traces every Content Extractor
invocation as (chapter, attempt); `Except.ok` carries the sorted data
handed to the Document Assembler, `Except.error` means the run aborted
with no output document. -/
def mainRun (cm : ChapterIndex) (prio : List String) (lo hi : Nat)
    (store : CacheStore) (includeImages : Bool) (fetchO : FetchOracle) :
    List (Nat × Nat) × Except OrchError (List ChapterData) :=
  if (planChapters cm prio lo hi).2 = [] then
    match fetchLoop fetchO
        (splitCache store includeImages (planChapters cm prio lo hi).1).2 with
    | (tr, Except.error num) => (tr, Except.error (OrchError.chapterFailed num))
    | (tr, Except.ok fetched) =>
      (tr, Except.ok
        (((splitCache store includeImages (planChapters cm prio lo hi).1).1 ++
            fetched).insertionSort (fun a b => a.chapter_num ≤ b.chapter_num)))
  else ([], Except.error (OrchError.missingChapters (planChapters cm prio lo hi).2))

theorem splitCache_cons (store : CacheStore) (inc : Bool) (num : Nat)
    (url : String) (rest : List (Nat × String)) :
    splitCache store inc ((num, url) :: rest) =
      match load_cache store num with
      | some c => (c.toData :: (splitCache store inc rest).1,
          (splitCache store inc rest).2)
      | none => ((splitCache store inc rest).1,
          (num, url) :: (splitCache store inc rest).2) := rfl

theorem fetchLoop_cons (fetchO : FetchOracle) (num : Nat) (url : String)
    (rest : List (Nat × String)) :
    fetchLoop fetchO ((num, url) :: rest) =
      match (retryLoop (fetchO num url) 3 0).1 with
      | none =>
        ((retryLoop (fetchO num url) 3 0).2.1.map (fun k => (num, k)),
          Except.error num)
      | some d =>
        ((retryLoop (fetchO num url) 3 0).2.1.map (fun k => (num, k)) ++
            (fetchLoop fetchO rest).1,
          match (fetchLoop fetchO rest).2 with
          | Except.error m => Except.error m
          | Except.ok ds => Except.ok (d.withNum num :: ds)) := rfl

theorem retryLoop_length_le (t : Nat → Option FetchOut) :
    ∀ r k, (retryLoop t r k).2.1.length ≤ r := by
  intro r
  induction r with
  | zero => intro k; exact Nat.le_refl 0
  | succ r ih =>
    intro k
    rw [retryLoop]
    cases t k with
    | some d => simp
    | none => simpa using Nat.succ_le_succ (ih (k + 1))

theorem retryLoop_sleeps (t : Nat → Option FetchOut) :
    ∀ r k s, s ∈ (retryLoop t r k).2.2 → s = 2 := by
  intro r
  induction r with
  | zero => intro k s hs; exact absurd hs (List.not_mem_nil s)
  | succ r ih =>
    intro k s hs
    rw [retryLoop] at hs
    cases htk : t k with
    | some d => rw [htk] at hs; simp at hs
    | none =>
      rw [htk] at hs
      simp only [List.mem_cons] at hs
      rcases hs with rfl | hs
      · rfl
      · exact ih (k + 1) s hs

theorem retryLoop_allFail (t : Nat → Option FetchOut) (h : ∀ j, t j = none) :
    ∀ r k, retryLoop t r k = (none, List.range' k r, List.replicate r 2) := by
  intro r
  induction r with
  | zero => intro k; rfl
  | succ r ih =>
    intro k
    rw [retryLoop, h k, ih (k + 1), List.range'_succ, List.replicate_succ]

/-! ## Claim C2, C3, C5, C8, C10 theorems -/

/-- C2: when the missing-chapters list computed for the requested range is
non-empty, planning fails fatally: the run halts carrying the explicit
missing list, the network trace is empty (no extractor call is ever made),
and no entry of the partial plan is executed. -/
theorem plan_gap_fatal (cm : ChapterIndex) (prio : List String) (lo hi : Nat)
    (store : CacheStore) (inc : Bool) (fetchO : FetchOracle)
    (h : (planChapters cm prio lo hi).2 ≠ []) :
    mainRun cm prio lo hi store inc fetchO =
      ([], Except.error (OrchError.missingChapters
        (planChapters cm prio lo hi).2)) := by
  unfold mainRun
  rw [if_neg h]

theorem plan_gap_fatal_witness :
    mainRun [] ["@a"] 1 1 [] true (fun _ _ _ => none) =
      ([], Except.error (OrchError.missingChapters [1])) :=
  (plan_gap_fatal [] ["@a"] 1 1 [] true (fun _ _ _ => none)
    (by decide)).trans rfl

/-- C3: for every planned entry that is a cache miss, the orchestrator
invokes the Content Extractor at most 3 times, sleeping a fixed 2-second
interval after each failed attempt (no growth); if all 3 attempts fail for
one entry the whole orchestration run aborts: the trace shows no call for
any later entry and the run ends in an error, producing no document. -/
theorem retry_bound_fail_fast :
    (∀ (t : Nat → Option FetchOut) (k : Nat),
      (retryLoop t 3 k).2.1.length ≤ 3) ∧
    (∀ (t : Nat → Option FetchOut) (k s : Nat),
      s ∈ (retryLoop t 3 k).2.2 → s = 2) ∧
    (∀ (fetchO : FetchOracle) (num : Nat) (url : String)
      (rest : List (Nat × String)), (∀ j, fetchO num url j = none) →
      fetchLoop fetchO ((num, url) :: rest) =
        ([(num, 0), (num, 1), (num, 2)], Except.error num)) ∧
    (∀ (cm : ChapterIndex) (prio : List String) (lo hi : Nat)
      (store : CacheStore) (inc : Bool) (fetchO : FetchOracle) (num : Nat)
      (url : String) (rest : List (Nat × String)),
      (planChapters cm prio lo hi).2 = [] →
      (splitCache store inc (planChapters cm prio lo hi).1).2
        = (num, url) :: rest →
      (∀ j, fetchO num url j = none) →
      mainRun cm prio lo hi store inc fetchO =
        ([(num, 0), (num, 1), (num, 2)],
          Except.error (OrchError.chapterFailed num))) := by
  have habort : ∀ (fetchO : FetchOracle) (num : Nat) (url : String)
      (rest : List (Nat × String)), (∀ j, fetchO num url j = none) →
      fetchLoop fetchO ((num, url) :: rest) =
        ([(num, 0), (num, 1), (num, 2)], Except.error num) := by
    intro fetchO num url rest hfail
    rw [fetchLoop_cons, retryLoop_allFail (fetchO num url) hfail 3 0]
    rfl
  refine ⟨fun t k => retryLoop_length_le t 3 k,
    fun t k s hs => retryLoop_sleeps t 3 k s hs, habort, ?_⟩
  intro cm prio lo hi store inc fetchO num url rest hplan hsplit hfail
  unfold mainRun
  rw [if_pos hplan, hsplit, habort fetchO num url rest hfail]

theorem retry_bound_fail_fast_witness :
    mainRun [(1, [("@a", "u")])] ["@a"] 1 1 [] true (fun _ _ _ => none) =
      ([(1, 0), (1, 1), (1, 2)],
        Except.error (OrchError.chapterFailed 1)) :=
  retry_bound_fail_fast.2.2.2 [(1, [("@a", "u")])] ["@a"] 1 1 [] true
    (fun _ _ _ => none) 1 "u" [] rfl rfl (fun _ => rfl)

/-- C5: storing a chapter record with `save_cache` and reading the same
chapter number back with `load_cache` returns the stored record with
byte-identical block markup and byte-identical image bytes: base64
encoding on save is exactly inverted on load. -/
theorem cache_roundtrip (store : CacheStore) (d : ChapterData)
    (hbytes : ∀ fb ∈ d.images, ∀ b ∈ fb.2, b < 256) :
    load_cache (save_cache store d) d.chapter_num =
      some { chapter_num := d.chapter_num, title := d.title, html := d.html,
             images := d.images, has_images := !d.images.isEmpty } := by
  unfold load_cache save_cache
  rw [alookup_dictInsert_self]
  simp only [decodeImages_encode d.images hbytes]

theorem cache_roundtrip_witness :
    load_cache (save_cache []
        { chapter_num := 5, title := "t", html := "<p>x</p>",
          images := [("img_a.png", [0, 255, 7])] }) 5 =
      some { chapter_num := 5, title := "t", html := "<p>x</p>",
             images := [("img_a.png", [0, 255, 7])], has_images := true } :=
  (cache_roundtrip []
    { chapter_num := 5, title := "t", html := "<p>x</p>",
      images := [("img_a.png", [0, 255, 7])] } (by decide)).trans rfl

theorem splitCache_miss_mem (store : CacheStore) (inc : Bool)
    (q : List (Nat × String)) (num : Nat) (url : String)
    (hq : (num, url) ∈ q) (hload : load_cache store num = none) :
    (num, url) ∈ (splitCache store inc q).2 := by
  induction q with
  | nil => cases hq
  | cons hd tl ih =>
    obtain ⟨n₂, u₂⟩ := hd
    rw [splitCache_cons]
    rcases List.mem_cons.mp hq with heq | hmem
    · obtain ⟨rfl, rfl⟩ := Prod.mk.injEq .. ▸ heq
      rw [hload]
      exact List.mem_cons_self _ _
    · cases hl : load_cache store n₂ with
      | some c => exact ih hmem
      | none => exact List.mem_cons_of_mem _ (ih hmem)

/-- C10: `load_cache` is total: an absent record file, an unreadable file,
invalid JSON content, and a record whose image entries fail base64
decoding each return `none` rather than raising, so a corrupt cache
record is silently a cache miss and the chapter is queued for
re-fetching by the orchestrator. -/
theorem load_cache_total (store : CacheStore) (num : Nat) :
    (alookup num store = none → load_cache store num = none) ∧
    (alookup num store = some CacheFile.unreadable →
      load_cache store num = none) ∧
    (alookup num store = some CacheFile.invalid →
      load_cache store num = none) ∧
    (∀ r, alookup num store = some (CacheFile.record r) →
      decodeImages r.images = none → load_cache store num = none) ∧
    (∀ inc url q, (num, url) ∈ q → load_cache store num = none →
      (num, url) ∈ (splitCache store inc q).2) := by
  refine ⟨fun h => ?_, fun h => ?_, fun h => ?_, fun r h hdec => ?_,
    fun inc url q hq hload => splitCache_miss_mem store inc q num url hq hload⟩
  · unfold load_cache; rw [h]
  · unfold load_cache; rw [h]
  · unfold load_cache; rw [h]
  · unfold load_cache
    rw [h]
    simp [hdec]

theorem load_cache_total_witness :
    load_cache [(3, CacheFile.invalid)] 3 = none ∧
    load_cache [(4, CacheFile.record
        { chapter_num := 4, title := "", html := "",
          images := [("f.png", [33])], has_images := true })] 4 = none ∧
    (3, "u") ∈ (splitCache [(3, CacheFile.invalid)] true [(3, "u")]).2 := by
  refine ⟨(load_cache_total [(3, CacheFile.invalid)] 3).2.2.1 (by decide),
    (load_cache_total _ 4).2.2.2.1
      { chapter_num := 4, title := "", html := "",
        images := [("f.png", [33])], has_images := true } (by decide) (by decide),
    (load_cache_total [(3, CacheFile.invalid)] 3).2.2.2.2 true "u" [(3, "u")]
      (List.mem_cons_self _ _) ?_⟩
  exact (load_cache_total [(3, CacheFile.invalid)] 3).2.2.1 (by decide)

theorem splitCache_hit_mem (store : CacheStore) (inc : Bool)
    (q : List (Nat × String)) (num : Nat) (url : String) (c : CachedChapter)
    (hq : (num, url) ∈ q) (hload : load_cache store num = some c) :
    c.toData ∈ (splitCache store inc q).1 := by
  induction q with
  | nil => cases hq
  | cons hd tl ih =>
    obtain ⟨n₂, u₂⟩ := hd
    rw [splitCache_cons]
    rcases List.mem_cons.mp hq with heq | hmem
    · rw [Prod.mk.injEq] at heq
      obtain ⟨rfl, rfl⟩ := heq
      rw [hload]
      exact List.mem_cons_self _ _
    · cases hl : load_cache store n₂ with
      | some c₂ => exact List.mem_cons_of_mem _ (ih hmem)
      | none => exact ih hmem

theorem splitCache_hit_not_missed (store : CacheStore) (inc : Bool)
    (q : List (Nat × String)) (num : Nat) (url : String) (c : CachedChapter)
    (hload : load_cache store num = some c) :
    (num, url) ∉ (splitCache store inc q).2 := by
  induction q with
  | nil => simp [splitCache]
  | cons hd tl ih =>
    obtain ⟨n₂, u₂⟩ := hd
    rw [splitCache_cons]
    cases hl : load_cache store n₂ with
    | some c₂ => exact ih
    | none =>
      intro hmem
      rcases List.mem_cons.mp hmem with heq | hmem₂
      · rw [Prod.mk.injEq] at heq
        obtain ⟨rfl, rfl⟩ := heq
        rw [hload] at hl
        cases hl
      · exact ih hmem₂

/-- C8: a planned entry whose chapter number has a cache record uses the
cached chapter unmodified (no re-fetch, no mutation), and the cache pass
is entirely independent of the current image-inclusion preference — even
when the cached record has no images but images are now wanted. -/
theorem cache_hit_unmodified (store : CacheStore) (q : List (Nat × String)) :
    (∀ inc₁ inc₂, splitCache store inc₁ q = splitCache store inc₂ q) ∧
    (∀ inc num url c, (num, url) ∈ q → load_cache store num = some c →
      c.toData ∈ (splitCache store inc q).1 ∧
      (num, url) ∉ (splitCache store inc q).2) := by
  refine ⟨?_, fun inc num url c hq hload =>
    ⟨splitCache_hit_mem store inc q num url c hq hload,
     splitCache_hit_not_missed store inc q num url c hload⟩⟩
  intro inc₁ inc₂
  induction q with
  | nil => rfl
  | cons hd tl ih =>
    obtain ⟨n₂, u₂⟩ := hd
    rw [splitCache_cons, splitCache_cons, ih]

/-- A one-chapter cache directory whose record has no images, for
exercising the cache-hit path. -/
def demoStore : CacheStore :=
  [(2, CacheFile.record
    { chapter_num := 2, title := "T", html := "<p>a</p>", images := [],
      has_images := false })]

/-- The dict `load_cache` yields for chapter 2 of `demoStore`. -/
def demoCached : CachedChapter :=
  { chapter_num := 2, title := "T", html := "<p>a</p>", images := [],
    has_images := false }

theorem cache_hit_unmodified_witness :
    splitCache demoStore true [(2, "u")] = splitCache demoStore false [(2, "u")] ∧
    demoCached.toData ∈ (splitCache demoStore true [(2, "u")]).1 ∧
    (2, "u") ∉ (splitCache demoStore true [(2, "u")]).2 := by
  refine ⟨(cache_hit_unmodified demoStore [(2, "u")]).1 true false, ?_, ?_⟩
  · exact ((cache_hit_unmodified demoStore [(2, "u")]).2 true 2 "u"
      demoCached (List.mem_cons_self _ _) rfl).1
  · exact ((cache_hit_unmodified demoStore [(2, "u")]).2 true 2 "u"
      demoCached (List.mem_cons_self _ _) rfl).2

/-! ## Content Extractor (`fetch_chapter` / `fetch_chapter_fallback`)

The control flow of both strategies is embedded in full. The external
libraries the script calls into are oracles carried in a `Libs` record:
`json.loads` (as a map from the delimited payload to the
`articles`→`items` view the code reads), BeautifulSoup parsing (as a map
from markup to an already-parsed element tree), `requests.get` for images
(`download`, `none` = any download failure), `hashlib.md5(...).hexdigest()`
and the regex pipeline `clean_html`. Marker search, delimiting, strategy
dispatch, child iteration, tag filtering, filename construction and image
handling are all embedded. -/

/-- A parsed HTML element: tag name, CSS classes, attributes, inner markup
(`decode_contents()`), visible text (`get_text()`), and child elements.
Text nodes (skipped by the `child.name is None` guard) are not carried. -/
inductive Elem where
  | mk (tag : String) (classes : List String) (attrs : List (String × String))
      (inner : String) (text : String) (children : List Elem)

def Elem.tag : Elem → String
  | .mk t _ _ _ _ _ => t

def Elem.classes : Elem → List String
  | .mk _ c _ _ _ _ => c

def Elem.attrs : Elem → List (String × String)
  | .mk _ _ a _ _ _ => a

def Elem.inner : Elem → String
  | .mk _ _ _ i _ _ => i

def Elem.text : Elem → String
  | .mk _ _ _ _ x _ => x

def Elem.children : Elem → List Elem
  | .mk _ _ _ _ _ cs => cs

mutual

/-- Depth-first, document-order search for the first element satisfying a
predicate, the element itself included (BeautifulSoup `find`/`select_one`
over a subtree). -/
def findElem (p : Elem → Bool) : Elem → Option Elem
  | Elem.mk t c a i x cs =>
    if p (Elem.mk t c a i x cs) then some (Elem.mk t c a i x cs)
    else findElemL p cs

def findElemL (p : Elem → Bool) : List Elem → Option Elem
  | [] => none
  | e :: es =>
    match findElem p e with
    | some r => some r
    | none => findElemL p es

end

/-- BeautifulSoup `find`/`select_one` called on an element or on the soup
root: searches the descendants, not the node itself. -/
def findDesc (p : Elem → Bool) (e : Elem) : Option Elem :=
  findElemL p e.children

/-- CSS class membership, as in a `tag.class` selector. -/
def hasClass (e : Elem) (c : String) : Bool :=
  e.classes.contains c

/-- Does `pat` occur at the very start of `hay`? -/
def begMatch : List Char → List Char → Bool
  | [], _ => true
  | _ :: _, [] => false
  | p :: ps, h :: hs => p = h && begMatch ps hs

/-- Python `str.find`: index of the first occurrence of `pat`, `none` for
Python's `-1`. -/
def findSub (pat : List Char) : List Char → Option Nat
  | [] => if pat.isEmpty then some 0 else none
  | c :: rest =>
    if begMatch pat (c :: rest) then some 0
    else (findSub pat rest).map (· + 1)

/-- Python `pat in hay` on strings. -/
def containsSub (hay pat : String) : Bool :=
  (findSub pat.toList hay.toList).isSome

/-- One record of `data["articles"]["items"]`: the `title` and `text`
fields the code reads. -/
structure StateArticle where
  title : String
  text : String

/-- The view of the parsed `window.__INITIAL_STATE__` JSON that the code
reads: the values of `data.get("articles", {}).get("items", {})` in dict
order (empty when those keys are missing). -/
structure StateData where
  articles_items : List StateArticle

/-- The library-call oracles of the extractor. -/
structure Libs where
  jsonParse : String → Option StateData
  parseHtml : String → Elem
  download : String → Option (List Nat)
  md5hex : String → String
  cleanHtml : String → String

/-- Lower-casing of an ASCII letter (Python `str.lower` on tag names). -/
def lowerChar (ch : Char) : Char :=
  if 65 ≤ ch.toNat ∧ ch.toNat ≤ 90 then Char.ofNat (ch.toNat + 32) else ch

/-- Python `str.lower` (tag names are ASCII). -/
def lowerStr (s : String) : String :=
  String.mk (s.toList.map lowerChar)

/-- Python whitespace as stripped by `str.strip`. -/
def isSpaceChar (ch : Char) : Bool :=
  ch = ' ' || ch = '\t' || ch = '\n' || ch = '\r' || ch = '\x0b' || ch = '\x0c'

/-- Python `str.strip()`. -/
def stripStr (s : String) : String :=
  String.mk (((s.toList.dropWhile isSpaceChar).reverse.dropWhile
    isSpaceChar).reverse)

/-- The image filename of both strategies:
`f"img_{md5(url)}.{ext}"` with `ext = "jpg"` when the URL contains a
`jpeg`/`jpg` marker and `"png"` otherwise — a function of the source URL
string alone, never of the image bytes. -/
def imgFilename (md5hex : String → String) (src : String) : String :=
  "img_" ++ md5hex src ++ "." ++
    (if containsSub src "jpeg" || containsSub src "jpg" then "jpg" else "png")

/-- The emitted centered image block of both strategies. -/
def imgBlock (fn : String) : String :=
  "<p style=\"text-align:center;\"><img src=\"images/" ++ fn ++
    "\" alt=\"\" /></p>"

/-- The whitelisted block-level tags of both strategies. -/
def blockTags : List String :=
  ["p", "h1", "h2", "h3", "h4", "h5", "h6", "blockquote", "ul", "ol", "div"]

/-- `"\n".join(content_parts)`. -/
def joinLines (parts : List String) : String :=
  String.intercalate "\n" parts

/-- The per-child loop body of strategy A (structured state): the custom
`<image src=...>` tag is special-cased, whitelisted tags are cleaned and
re-emitted, centering comes from the `align` attribute. -/
def jsonStep (L : Libs) (includeImages : Bool)
    (acc : List String × List (String × List Nat)) (child : Elem) :
    List String × List (String × List Nat) :=
  let tag := lowerStr child.tag
  if tag = "image" then
    if !includeImages then acc
    else
      match alookup "src" child.attrs with
      | none => acc
      | some src =>
        if src = "" then acc
        else
          match L.download src with
          | none => acc
          | some bytes =>
            (acc.1 ++ [imgBlock (imgFilename L.md5hex src)],
              acc.2 ++ [(imgFilename L.md5hex src, bytes)])
  else if tag ∈ blockTags then
    if stripStr (L.cleanHtml child.inner) = "" then acc
    else
      (acc.1 ++ ["<" ++ tag ++
        (if (alookup "align" child.attrs).getD "" = "center" then
          " style=\"text-align:center;\"" else "") ++ ">" ++
        L.cleanHtml child.inner ++ "</" ++ tag ++ ">"], acc.2)
  else acc

/-- Image-source resolution for a `<figure>` in strategy B: first an `img`
with a non-empty `src` inside a `noscript` (whose contents are re-parsed;
modelled as the `noscript` subtree), then `img.get("src") or
img.get("data-src")` on the figure itself, empty strings being falsy. -/
def figureSrc (child : Elem) : Option String :=
  match
    (match findDesc (fun e => e.tag = "noscript") child with
     | some ns =>
       match findDesc (fun e => e.tag = "img") ns with
       | some img =>
         match alookup "src" img.attrs with
         | some s => if s = "" then none else some s
         | none => none
       | none => none
     | none => none) with
  | some s => some s
  | none =>
    match findDesc (fun e => e.tag = "img") child with
    | some img =>
      match alookup "src" img.attrs with
      | some s =>
        if s = "" then
          match alookup "data-src" img.attrs with
          | some s₂ => if s₂ = "" then none else some s₂
          | none => none
        else some s
      | none =>
        match alookup "data-src" img.attrs with
        | some s₂ => if s₂ = "" then none else some s₂
        | none => none
    | none => none

/-- The per-child loop body of strategy B (rendered DOM): `<figure>`
carries images, whitelisted tags are cleaned and re-emitted, centering
comes from the `data-align` attribute. -/
def domStep (L : Libs) (includeImages : Bool)
    (acc : List String × List (String × List Nat)) (child : Elem) :
    List String × List (String × List Nat) :=
  let tag := lowerStr child.tag
  if tag = "figure" then
    if !includeImages then acc
    else
      match figureSrc child with
      | none => acc
      | some src =>
        match L.download src with
        | none => acc
        | some bytes =>
          (acc.1 ++ [imgBlock (imgFilename L.md5hex src)],
            acc.2 ++ [(imgFilename L.md5hex src, bytes)])
  else if tag ∈ blockTags then
    if stripStr (L.cleanHtml child.inner) = "" then acc
    else
      (acc.1 ++ ["<" ++ tag ++
        (if (alookup "data-align" child.attrs).getD "" = "center" then
          " style=\"text-align:center;\"" else "") ++ ">" ++
        L.cleanHtml child.inner ++ "</" ++ tag ++ ">"], acc.2)
  else acc

/-- The placeholder body returned when neither strategy finds content. -/
def noContentHtml : String :=
  "<p>Не удалось найти контент (ни JSON, ни HTML)</p>"

/-- Embedding of `fetch_chapter_fallback`: title and content container by
CSS-class convention, then the per-child loop over the container's direct
children. When no container exists, a placeholder body is RETURNED. -/
def fetch_chapter_fallback (L : Libs) (htmlSource : String)
    (includeImages : Bool) : FetchOut :=
  let soup := L.parseHtml htmlSource
  let title :=
    match findDesc (fun e => e.tag = "h1" && hasClass e "article__header_title")
        soup with
    | some t => stripStr t.text
    | none => ""
  match
    (match findDesc (fun e => e.tag = "article" && hasClass e "article__content")
        soup with
     | some a => some a
     | none =>
       findDesc (fun e => e.tag = "div" && hasClass e "article__content") soup) with
  | none => { title := title, html := noContentHtml, images := [] }
  | some art =>
    { title := title,
      html := joinLines (art.children.foldl (domStep L includeImages) ([], [])).1,
      images := (art.children.foldl (domStep L includeImages) ([], [])).2 }

/-- The `window.__INITIAL_STATE__=` marker. -/
def startMarker : String := "window.__INITIAL_STATE__="

/-- Root selection of strategy A: `body` if present, then a `document`
element inside it if present. -/
def rootOf (soup : Elem) : Elem :=
  let root :=
    match findDesc (fun e => e.tag = "body") soup with
    | some b => b
    | none => soup
  match findDesc (fun e => e.tag = "document") root with
  | some d => d
  | none => root

/-- Embedding of `fetch_chapter` (on a response body): locate the state
payload between the marker and the next `;window.` or `</script>`
boundary, parse it, read the first article; fall back to
`fetch_chapter_fallback` when the marker, the boundary, the parse or the
articles are missing. -/
def fetch_chapter (L : Libs) (respText : String) (includeImages : Bool) :
    FetchOut :=
  match findSub startMarker.toList respText.toList with
  | none => fetch_chapter_fallback L respText includeImages
  | some i =>
    match
      (match findSub ";window.".toList
          (respText.toList.drop (i + startMarker.toList.length)) with
       | some j => some j
       | none =>
         findSub "</script>".toList
           (respText.toList.drop (i + startMarker.toList.length))) with
    | none => fetch_chapter_fallback L respText includeImages
    | some j =>
      match L.jsonParse (String.mk
          ((respText.toList.drop (i + startMarker.toList.length)).take j)) with
      | none => fetch_chapter_fallback L respText includeImages
      | some data =>
        match data.articles_items with
        | [] => fetch_chapter_fallback L respText includeImages
        | article :: _ =>
          if article.text = "" then
            { title := article.title, html := "<p>(Пусто)</p>", images := [] }
          else
            { title := article.title,
              html := joinLines ((rootOf (L.parseHtml article.text)).children.foldl
                (jsonStep L includeImages) ([], [])).1,
              images := ((rootOf (L.parseHtml article.text)).children.foldl
                (jsonStep L includeImages) ([], [])).2 }

/-- Exceptions `requests.get` / `raise_for_status` can raise during a
chapter fetch. -/
inductive NetErr
  | connectionError
  | timeout
  | httpError (code : Nat)
deriving DecidableEq

/-- `requests.Response.raise_for_status`: raises exactly for 4xx/5xx
(`400 <= status_code < 500` client error, `500 <= status_code < 600`
server error); any other status returns normally. -/
def raise_for_status (code : Nat) : Except NetErr Unit :=
  if 400 ≤ code ∧ code < 600 then Except.error (NetErr.httpError code)
  else Except.ok ()

/-- `fetch_chapter` seen from its caller, network boundary included:
`requests.get` either raises (the `Except.error` input) or yields a status
code and body; `raise_for_status` raises on an error status; only then is
the body extracted. Any `Except.error` outcome is what the retry loop
catches — a retryable extraction failure. -/
def fetch_chapter_net (L : Libs) (resp : Except NetErr (Nat × String))
    (includeImages : Bool) : Except NetErr FetchOut :=
  match resp with
  | Except.error e => Except.error e
  | Except.ok (code, body) =>
    match raise_for_status code with
    | Except.error e => Except.error e
    | Except.ok _ => Except.ok (fetch_chapter L body includeImages)

/-! ## Claim C4 -/

/-- The root of an empty parsed document. -/
def emptyElem : Elem := Elem.mk "[document]" [] [] "" "" []

/-- Oracles for a page with no parsable state payload and no recognizable
DOM containers. -/
def stubLibs : Libs :=
  { jsonParse := fun _ => none, parseHtml := fun _ => emptyElem,
    download := fun _ => none, md5hex := fun _ => "", cleanHtml := fun s => s }

/-- C4 counterexample: on a 200 response whose body has neither the state
marker nor any recognizable content container (missing required page
structure), the Content Extractor RETURNS a placeholder chapter body — it
does not fail with a retryable extraction error as the claim states. -/
theorem missing_structure_returns_body :
    containsSub "<html></html>" startMarker = false ∧
    fetch_chapter_net stubLibs (Except.ok (200, "<html></html>")) true =
      Except.ok { title := "", html := noContentHtml, images := [] } :=
  ⟨rfl, rfl⟩

/-- C4 (amended): the Content Extractor either returns a chapter body or
fails with a retryable extraction error; a network failure, a timeout and
an HTTP error status (4xx/5xx) each cause a retryable failure, but
missing required page structure (no state payload and no recognizable DOM
content container) yields a RETURNED placeholder body rather than a
failure. -/
theorem extractor_contract (L : Libs) (inc : Bool) :
    (∀ e, fetch_chapter_net L (Except.error e) inc = Except.error e) ∧
    (∀ code body, 400 ≤ code → code < 600 →
      fetch_chapter_net L (Except.ok (code, body)) inc =
        Except.error (NetErr.httpError code)) ∧
    (∀ body code, code < 400 →
      containsSub body startMarker = false →
      findDesc (fun e => e.tag = "article" && hasClass e "article__content")
        (L.parseHtml body) = none →
      findDesc (fun e => e.tag = "div" && hasClass e "article__content")
        (L.parseHtml body) = none →
      ∃ title, fetch_chapter_net L (Except.ok (code, body)) inc =
        Except.ok { title := title, html := noContentHtml, images := [] }) := by
  refine ⟨fun e => rfl, fun code body hc₁ hc₂ => ?_,
    fun body code hc hmark hart hdiv => ?_⟩
  · unfold fetch_chapter_net raise_for_status
    simp [hc₁, hc₂]
  · have hfs : findSub startMarker.toList body.toList = none := by
      cases h : findSub startMarker.toList body.toList with
      | none => rfl
      | some v =>
        unfold containsSub at hmark
        rw [h] at hmark
        exact absurd hmark (by simp)
    refine ⟨(match findDesc
        (fun e => e.tag = "h1" && hasClass e "article__header_title")
        (L.parseHtml body) with
      | some t => stripStr t.text
      | none => ""), ?_⟩
    unfold fetch_chapter_net raise_for_status
    simp only [if_neg (show ¬(400 ≤ code ∧ code < 600) by omega)]
    have hfc : fetch_chapter L body inc = fetch_chapter_fallback L body inc := by
      unfold fetch_chapter
      rw [hfs]
    rw [hfc]
    unfold fetch_chapter_fallback
    simp only [hart, hdiv]

theorem extractor_contract_witness :
    fetch_chapter_net stubLibs (Except.error NetErr.timeout) true =
      Except.error NetErr.timeout ∧
    fetch_chapter_net stubLibs (Except.ok (404, "x")) true =
      Except.error (NetErr.httpError 404) ∧
    ∃ title, fetch_chapter_net stubLibs (Except.ok (200, "<p>raw</p>")) true =
      Except.ok { title := title, html := noContentHtml, images := [] } :=
  ⟨(extractor_contract stubLibs true).1 NetErr.timeout,
    (extractor_contract stubLibs true).2.1 404 "x" (by omega) (by omega),
    (extractor_contract stubLibs true).2.2 "<p>raw</p>" 200 (by omega) rfl rfl rfl⟩

/-! ## Claim C7 -/

theorem domStep_extends (L : Libs) (inc : Bool)
    (acc : List String × List (String × List Nat)) (c : Elem) :
    ∃ δ, (domStep L inc acc c).1 = acc.1 ++ δ := by
  simp only [domStep]
  repeat' split
  all_goals
    first
      | exact ⟨[], (List.append_nil _).symm⟩
      | exact ⟨[_], rfl⟩

theorem foldl_domStep_extends (L : Libs) (inc : Bool) (cs : List Elem) :
    ∀ acc, ∃ δ, (cs.foldl (domStep L inc) acc).1 = acc.1 ++ δ := by
  induction cs with
  | nil => exact fun acc => ⟨[], (List.append_nil _).symm⟩
  | cons hd tl ih =>
    intro acc
    obtain ⟨δ₁, h₁⟩ := domStep_extends L inc acc hd
    obtain ⟨δ₂, h₂⟩ := ih (domStep L inc acc hd)
    exact ⟨δ₁ ++ δ₂, by rw [List.foldl_cons, h₂, h₁, List.append_assoc]⟩

theorem domStep_valid_child (L : Libs) (inc : Bool)
    (acc : List String × List (String × List Nat)) (c : Elem)
    (htag : lowerStr c.tag ∈ blockTags)
    (hinner : ¬stripStr (L.cleanHtml c.inner) = "") :
    (domStep L inc acc c).1 = acc.1 ++ ["<" ++ lowerStr c.tag ++
      (if (alookup "data-align" c.attrs).getD "" = "center" then
        " style=\"text-align:center;\"" else "") ++ ">" ++
      L.cleanHtml c.inner ++ "</" ++ lowerStr c.tag ++ ">"] := by
  have hfig : ¬lowerStr c.tag = "figure" := by
    intro h
    rw [h] at htag
    exact absurd htag (by decide)
  unfold domStep
  simp only [if_neg hfig, if_pos htag, if_neg hinner]

theorem foldl_domStep_ne_nil (L : Libs) (inc : Bool) (cs : List Elem)
    (c : Elem) (hc : c ∈ cs) (htag : lowerStr c.tag ∈ blockTags)
    (hinner : ¬stripStr (L.cleanHtml c.inner) = "") :
    (cs.foldl (domStep L inc) ([], [])).1 ≠ [] := by
  obtain ⟨l₁, l₂, rfl⟩ := List.append_of_mem hc
  rw [List.foldl_append, List.foldl_cons]
  obtain ⟨δ₂, h₂⟩ := foldl_domStep_extends L inc l₂
    (domStep L inc (l₁.foldl (domStep L inc) ([], [])) c)
  rw [h₂, domStep_valid_child L inc _ c htag hinner]
  simp

/-- C7: when the structured-state marker token is absent from the response
body — or the delimited payload is truncated (no closing boundary) or
fails to parse — extraction proceeds via the rendered-DOM fallback
strategy; and the fallback yields a non-empty ordered block list whenever
the page has a content container holding a whitelisted block element with
non-empty cleaned inner markup. -/
theorem strategy_fallback (L : Libs) (respText : String) (inc : Bool) :
    (containsSub respText startMarker = false →
      fetch_chapter L respText inc = fetch_chapter_fallback L respText inc) ∧
    (∀ i, findSub startMarker.toList respText.toList = some i →
      findSub ";window.".toList
        (respText.toList.drop (i + startMarker.toList.length)) = none →
      findSub "</script>".toList
        (respText.toList.drop (i + startMarker.toList.length)) = none →
      fetch_chapter L respText inc = fetch_chapter_fallback L respText inc) ∧
    (∀ i j, findSub startMarker.toList respText.toList = some i →
      (match findSub ";window.".toList
          (respText.toList.drop (i + startMarker.toList.length)) with
        | some j₂ => some j₂
        | none => findSub "</script>".toList
            (respText.toList.drop (i + startMarker.toList.length))) = some j →
      L.jsonParse (String.mk
        ((respText.toList.drop (i + startMarker.toList.length)).take j)) = none →
      fetch_chapter L respText inc = fetch_chapter_fallback L respText inc) ∧
    (∀ art c,
      (match findDesc
          (fun e => e.tag = "article" && hasClass e "article__content")
          (L.parseHtml respText) with
        | some a => some a
        | none => findDesc
            (fun e => e.tag = "div" && hasClass e "article__content")
            (L.parseHtml respText)) = some art →
      c ∈ art.children → lowerStr c.tag ∈ blockTags →
      ¬stripStr (L.cleanHtml c.inner) = "" →
      (art.children.foldl (domStep L inc) ([], [])).1 ≠ [] ∧
      (fetch_chapter_fallback L respText inc).html =
        joinLines (art.children.foldl (domStep L inc) ([], [])).1) := by
  refine ⟨fun hmark => ?_, fun i h₁ h₂ h₃ => ?_, fun i j h₁ h₂ h₃ => ?_,
    fun art c hart hc htag hinner => ?_⟩
  · have hfs : findSub startMarker.toList respText.toList = none := by
      cases h : findSub startMarker.toList respText.toList with
      | none => rfl
      | some v =>
        unfold containsSub at hmark
        rw [h] at hmark
        exact absurd hmark (by simp)
    unfold fetch_chapter
    rw [hfs]
  · unfold fetch_chapter
    rw [h₁]
    simp only [h₂, h₃]
  · unfold fetch_chapter
    rw [h₁]
    simp only [h₂, h₃]
  · refine ⟨foldl_domStep_ne_nil L inc art.children c hc htag hinner, ?_⟩
    unfold fetch_chapter_fallback
    simp only [hart]

/-- A content container with one non-empty paragraph. -/
def demoArticle : Elem :=
  Elem.mk "article" ["article__content"] [] "" ""
    [Elem.mk "p" [] [] "hello" "hello" []]

/-- A parsed page holding `demoArticle`. -/
def demoPage : Elem := Elem.mk "[document]" [] [] "" "" [demoArticle]

/-- Oracles for a statically rendered page: no parsable state payload,
DOM containing `demoPage`. -/
def demoLibs : Libs :=
  { jsonParse := fun _ => none, parseHtml := fun _ => demoPage,
    download := fun _ => none, md5hex := fun _ => "h", cleanHtml := fun s => s }

theorem strategy_fallback_witness :
    fetch_chapter demoLibs "plain" true =
      fetch_chapter_fallback demoLibs "plain" true ∧
    (demoArticle.children.foldl (domStep demoLibs true) ([], [])).1 ≠ [] ∧
    (fetch_chapter_fallback demoLibs "plain" true).html =
      joinLines (demoArticle.children.foldl (domStep demoLibs true) ([], [])).1 := by
  refine ⟨(strategy_fallback demoLibs "plain" true).1 rfl, ?_, ?_⟩
  · exact ((strategy_fallback demoLibs "plain" true).2.2.2 demoArticle
      (Elem.mk "p" [] [] "hello" "hello" []) rfl (List.mem_cons_self _ _)
      (by decide) (by decide)).1
  · exact ((strategy_fallback demoLibs "plain" true).2.2.2 demoArticle
      (Elem.mk "p" [] [] "hello" "hello" []) rfl (List.mem_cons_self _ _)
      (by decide) (by decide)).2

/-! ## Claim C6 -/

theorem jsonStep_images (L : Libs) (inc : Bool)
    (acc : List String × List (String × List Nat)) (c : Elem) (fn : String)
    (bts : List Nat) (h : (fn, bts) ∈ (jsonStep L inc acc c).2) :
    (fn, bts) ∈ acc.2 ∨
      ∃ src, fn = imgFilename L.md5hex src ∧ L.download src = some bts := by
  by_cases himg : lowerStr c.tag = "image"
  · cases inc with
    | false =>
      simp only [jsonStep, if_pos himg, Bool.not_false, if_true] at h
      exact Or.inl h
    | true =>
      simp only [jsonStep, if_pos himg, Bool.not_true, Bool.false_eq_true,
        if_false] at h
      cases hsrc : alookup "src" c.attrs with
      | none => simp only [hsrc] at h; exact Or.inl h
      | some src =>
        simp only [hsrc] at h
        by_cases hempty : src = ""
        · rw [if_pos hempty] at h; exact Or.inl h
        · rw [if_neg hempty] at h
          cases hdl : L.download src with
          | none => simp only [hdl] at h; exact Or.inl h
          | some bytes₂ =>
            simp only [hdl] at h
            rcases List.mem_append.mp h with hm | hm
            · exact Or.inl hm
            · have := List.mem_singleton.mp hm
              rw [Prod.mk.injEq] at this
              obtain ⟨rfl, rfl⟩ := this
              exact Or.inr ⟨src, rfl, hdl⟩
  · by_cases hblk : lowerStr c.tag ∈ blockTags
    · simp only [jsonStep, if_neg himg, if_pos hblk] at h
      by_cases hstrip : stripStr (L.cleanHtml c.inner) = ""
      · rw [if_pos hstrip] at h; exact Or.inl h
      · rw [if_neg hstrip] at h; exact Or.inl h
    · simp only [jsonStep, if_neg himg, if_neg hblk] at h
      exact Or.inl h

theorem domStep_images (L : Libs) (inc : Bool)
    (acc : List String × List (String × List Nat)) (c : Elem) (fn : String)
    (bts : List Nat) (h : (fn, bts) ∈ (domStep L inc acc c).2) :
    (fn, bts) ∈ acc.2 ∨
      ∃ src, fn = imgFilename L.md5hex src ∧ L.download src = some bts := by
  by_cases hfig : lowerStr c.tag = "figure"
  · cases inc with
    | false =>
      simp only [domStep, if_pos hfig, Bool.not_false, if_true] at h
      exact Or.inl h
    | true =>
      simp only [domStep, if_pos hfig, Bool.not_true, Bool.false_eq_true,
        if_false] at h
      cases hsrc : figureSrc c with
      | none => simp only [hsrc] at h; exact Or.inl h
      | some src =>
        simp only [hsrc] at h
        cases hdl : L.download src with
        | none => simp only [hdl] at h; exact Or.inl h
        | some bytes₂ =>
          simp only [hdl] at h
          rcases List.mem_append.mp h with hm | hm
          · exact Or.inl hm
          · have := List.mem_singleton.mp hm
            rw [Prod.mk.injEq] at this
            obtain ⟨rfl, rfl⟩ := this
            exact Or.inr ⟨src, rfl, hdl⟩
  · by_cases hblk : lowerStr c.tag ∈ blockTags
    · simp only [domStep, if_neg hfig, if_pos hblk] at h
      by_cases hstrip : stripStr (L.cleanHtml c.inner) = ""
      · rw [if_pos hstrip] at h; exact Or.inl h
      · rw [if_neg hstrip] at h; exact Or.inl h
    · simp only [domStep, if_neg hfig, if_neg hblk] at h
      exact Or.inl h

theorem foldl_jsonStep_images (L : Libs) (inc : Bool) (cs : List Elem) :
    ∀ acc fn bts, (fn, bts) ∈ (cs.foldl (jsonStep L inc) acc).2 →
      (fn, bts) ∈ acc.2 ∨
        ∃ src, fn = imgFilename L.md5hex src ∧ L.download src = some bts := by
  induction cs with
  | nil => exact fun acc fn bts h => Or.inl h
  | cons hd tl ih =>
    intro acc fn bts h
    rcases ih _ fn bts h with hm | hex
    · exact jsonStep_images L inc acc hd fn bts hm
    · exact Or.inr hex

theorem foldl_domStep_images (L : Libs) (inc : Bool) (cs : List Elem) :
    ∀ acc fn bts, (fn, bts) ∈ (cs.foldl (domStep L inc) acc).2 →
      (fn, bts) ∈ acc.2 ∨
        ∃ src, fn = imgFilename L.md5hex src ∧ L.download src = some bts := by
  induction cs with
  | nil => exact fun acc fn bts h => Or.inl h
  | cons hd tl ih =>
    intro acc fn bts h
    rcases ih _ fn bts h with hm | hex
    · exact domStep_images L inc acc hd fn bts hm
    · exact Or.inr hex

theorem fallback_images (L : Libs) (text : String) (inc : Bool) (fn : String)
    (bts : List Nat)
    (h : (fn, bts) ∈ (fetch_chapter_fallback L text inc).images) :
    ∃ src, fn = imgFilename L.md5hex src ∧ L.download src = some bts := by
  simp only [fetch_chapter_fallback] at h
  split at h
  · exact absurd h (List.not_mem_nil _)
  · rcases foldl_domStep_images L inc _ ([], []) fn bts h with hm | hex
    · exact absurd hm (List.not_mem_nil _)
    · exact hex

theorem fetch_images (L : Libs) (text : String) (inc : Bool) (fn : String)
    (bts : List Nat) (h : (fn, bts) ∈ (fetch_chapter L text inc).images) :
    ∃ src, fn = imgFilename L.md5hex src ∧ L.download src = some bts := by
  unfold fetch_chapter at h
  split at h
  · exact fallback_images L text inc fn bts h
  · split at h
    · exact fallback_images L text inc fn bts h
    · split at h
      · exact fallback_images L text inc fn bts h
      · split at h
        · exact fallback_images L text inc fn bts h
        · split at h
          · exact absurd h (List.not_mem_nil _)
          · rcases foldl_jsonStep_images L inc _ ([], []) fn bts h with hm | hex
            · exact absurd hm (List.not_mem_nil _)
            · exact hex

theorem imgFilename_inj (md5 : String → String) (u₁ u₂ : String)
    (hne : md5 u₁ ≠ md5 u₂) : imgFilename md5 u₁ ≠ imgFilename md5 u₂ := by
  intro heq
  apply hne
  have h := congrArg String.data heq
  simp only [imgFilename, String.data_append] at h
  have he₁ : (if containsSub u₁ "jpeg" || containsSub u₁ "jpg" then "jpg"
      else "png").data.length =
      (if containsSub u₂ "jpeg" || containsSub u₂ "jpg" then "jpg"
      else "png").data.length := by
    split <;> split <;> rfl
  have step₁ := List.append_inj' h he₁
  have step₂ := List.append_inj' step₁.1 rfl
  have step₃ := List.append_cancel_left step₂.1
  cases hm₁ : md5 u₁ with
  | mk d₁ =>
    cases hm₂ : md5 u₂ with
    | mk d₂ =>
      rw [hm₁, hm₂] at step₃
      exact congrArg String.mk (by simpa using step₃)

/-- C6: both extraction strategies compute every emitted image filename
deterministically from the md5 hash of the image source URL string alone —
never from the image bytes — with extension jpg when the URL contains a
jpeg/jpg marker and png otherwise; hence extracting the same page twice
yields the same filenames for the same image URLs, and two URLs with
distinct hashes get distinct filenames even for identical bytes. -/
theorem filename_url_hash (md5 : String → String) :
    (∀ src, (containsSub src "jpeg" = true ∨ containsSub src "jpg" = true) →
      imgFilename md5 src = "img_" ++ md5 src ++ ".jpg") ∧
    (∀ src, containsSub src "jpeg" = false → containsSub src "jpg" = false →
      imgFilename md5 src = "img_" ++ md5 src ++ ".png") ∧
    (∀ u₁ u₂, md5 u₁ ≠ md5 u₂ →
      imgFilename md5 u₁ ≠ imgFilename md5 u₂) ∧
    (∀ (L : Libs) (inc : Bool) (text fn : String) (bts : List Nat),
      L.md5hex = md5 →
      ((fn, bts) ∈ (fetch_chapter L text inc).images ∨
        (fn, bts) ∈ (fetch_chapter_fallback L text inc).images) →
      ∃ src, fn = imgFilename md5 src ∧ L.download src = some bts) := by
  refine ⟨fun src hsrc => ?_, fun src h₁ h₂ => ?_, imgFilename_inj md5,
    fun L inc text fn bts hmd hmem => ?_⟩
  · unfold imgFilename
    rcases hsrc with h | h <;> rw [h] <;> simp [String.append_assoc]
  · unfold imgFilename
    rw [h₁, h₂]
    simp [String.append_assoc]
  · subst hmd
    rcases hmem with h | h
    · exact fetch_images L text inc fn bts h
    · exact fallback_images L text inc fn bts h

/-- A figure wrapping an image with a source URL. -/
def demoFigure : Elem :=
  Elem.mk "figure" [] [] "" "" [Elem.mk "img" [] [("src", "pic.png")] "" "" []]

/-- A content container holding `demoFigure`. -/
def imgArticle : Elem :=
  Elem.mk "article" ["article__content"] [] "" "" [demoFigure]

/-- A parsed page holding `imgArticle`. -/
def imgPage : Elem := Elem.mk "[document]" [] [] "" "" [imgArticle]

/-- Oracles for a statically rendered page with one downloadable image. -/
def imgLibs : Libs :=
  { jsonParse := fun _ => none, parseHtml := fun _ => imgPage,
    download := fun s => if s = "pic.png" then some [9, 200] else none,
    md5hex := fun _ => "h", cleanHtml := fun s => s }

theorem filename_url_hash_witness :
    imgFilename (fun s => s) "a.jpg" = "img_" ++ "a.jpg" ++ ".jpg" ∧
    imgFilename (fun s => s) "b.bin" = "img_" ++ "b.bin" ++ ".png" ∧
    imgFilename (fun s => s) "a.jpg" ≠ imgFilename (fun s => s) "b.bin" ∧
    ∃ src, "img_h.png" = imgFilename imgLibs.md5hex src ∧
      imgLibs.download src = some [9, 200] := by
  refine ⟨(filename_url_hash (fun s => s)).1 "a.jpg" (Or.inr rfl),
    (filename_url_hash (fun s => s)).2.1 "b.bin" rfl rfl,
    (filename_url_hash (fun s => s)).2.2.1 "a.jpg" "b.bin" (by decide), ?_⟩
  exact (filename_url_hash imgLibs.md5hex).2.2.2 imgLibs true "x" "img_h.png"
    [9, 200] rfl (Or.inr (by decide))

end TeletypeEpub
